import Mathlib

/-!
Verification of the GL normalization and trial-balance engine of
zackfinancial (src/app.py) against its specification.

Modelling conventions:
* pandas timestamps are represented at day granularity by their epoch day
  (days since 1970-01-01, `Int`); `parse_date` ends in `.dt.normalize()`
  and every observation the claims make (year extraction for plausibility
  scoring, month truncation) depends only on the calendar day, so this
  quotient is faithful.
* cell values are the inductive `Value`: a string, an exact rational
  number (pandas floats are modelled by `ℚ`), a (midnight) datetime, or
  the missing marker NaN.
* library calls (`pd.to_datetime`, `pd.to_numeric`, `Series.replace` with
  a regex) are modelled value-by-value; each model carries a doc comment
  naming the pandas behaviour it captures.
-/

/-! ## Calendar arithmetic (epoch-day to civil date and back) -/

/-- Days from civil date `(y, m, d)` to the epoch 1970-01-01 (standard
era-based algorithm, floor division throughout). -/
def daysFromCivil (y m d : Int) : Int :=
  let y2 : Int := if m ≤ 2 then y - 1 else y
  let era : Int := Int.fdiv y2 400
  let yoe : Int := y2 - era * 400
  let mp : Int := Int.emod (m + 9) 12
  let doy : Int := Int.fdiv (153 * mp + 2) 5 + d - 1
  let doe : Int := yoe * 365 + Int.fdiv yoe 4 - Int.fdiv yoe 100 + doy
  era * 146097 + doe - 719468

/-- Civil date `(year, month, day)` of an epoch day. -/
def civilFromDays (z : Int) : Int × Int × Int :=
  let z2 : Int := z + 719468
  let era : Int := Int.fdiv z2 146097
  let doe : Int := z2 - era * 146097
  let yoe : Int := Int.fdiv (doe - Int.fdiv doe 1460 + Int.fdiv doe 36524 - Int.fdiv doe 146096) 365
  let y : Int := yoe + era * 400
  let doy : Int := doe - (365 * yoe + Int.fdiv yoe 4 - Int.fdiv yoe 100)
  let mp : Int := Int.fdiv (5 * doy + 2) 153
  let dd : Int := doy - Int.fdiv (153 * mp + 2) 5 + 1
  let mm : Int := mp + (if mp < 10 then 3 else -9)
  (y + (if mm ≤ 2 then 1 else 0), mm, dd)

/-- The calendar year of an epoch day (`Series.dt.year`). -/
def yearOf (t : Int) : Int := (civilFromDays t).1

/-- Truncation of an epoch day to the first day of its calendar month
(`Series.dt.to_period("M").dt.to_timestamp()`). -/
def monthStart (t : Int) : Int :=
  daysFromCivil (civilFromDays t).1 (civilFromDays t).2.1 1

/-- Leap-year test of the Gregorian calendar. -/
def isLeap (y : Int) : Bool :=
  Int.emod y 4 = 0 && (Int.emod y 100 ≠ 0 || Int.emod y 400 = 0)

/-- Number of days in month `m` of year `y`. -/
def daysInMonth (y m : Int) : Int :=
  if m = 2 then (if isLeap y then 29 else 28)
  else if m = 4 ∨ m = 6 ∨ m = 9 ∨ m = 11 then 30 else 31

/-! ## Character-level text processing

The source cleans cell text with `str.replace(",", "")`, `str.strip()`,
`str.lower()` and a regex substitution; these are modelled on `List Char`
so that concrete evaluations reduce in the kernel. -/

/-- ASCII lower-casing of one character (model of `str.lower` on the
characters the data uses). -/
def lowerChar (c : Char) : Char :=
  if 'A' ≤ c ∧ c ≤ 'Z' then Char.ofNat (c.toNat + 32) else c

/-- Whitespace test used by `str.strip`. -/
def isWsChar (c : Char) : Bool :=
  c = ' ' || c = '\t' || c = '\n' || c = '\r'

/-- `str.strip()`: drop leading and trailing whitespace. -/
def trimChars (l : List Char) : List Char :=
  ((l.dropWhile isWsChar).reverse.dropWhile isWsChar).reverse

/-- `str.replace(",", "")`: remove every comma. -/
def stripCommas (l : List Char) : List Char :=
  l.filter (fun c => ¬ c = ',')

/-- The comma-strip-then-trim cleanup both normalizers apply to cell text. -/
def cleanChars (l : List Char) : List Char := trimChars (stripCommas l)

/-- `_norm` of the source: `str(s).strip().lower()` on a column label. -/
def _norm (s : String) : String := ⟨(trimChars s.data).map lowerChar⟩

/-- Numeric value of a list of decimal digit characters. -/
def digitsVal (l : List Char) : Nat :=
  l.foldl (fun a c => a * 10 + (c.toNat - 48)) 0

/-- An unsigned decimal mantissa: digits, optionally a point and more
digits, with at least one digit in all. -/
def parseUnsignedDec (l : List Char) : Option ℚ :=
  let ip := l.takeWhile Char.isDigit
  let rest := l.dropWhile Char.isDigit
  match rest with
  | [] => if ip.isEmpty then none else some (digitsVal ip)
  | '.' :: fp =>
      if fp.all Char.isDigit ∧ (ip ≠ [] ∨ fp ≠ []) then
        some ((digitsVal ip : ℚ) + (digitsVal fp : ℚ) / (10 : ℚ) ^ fp.length)
      else none
  | _ => none

/-- A mantissa with an optional leading sign. -/
def parseSignedDec : List Char → Option ℚ
  | '-' :: l => (parseUnsignedDec l).map (fun q => -q)
  | '+' :: l => parseUnsignedDec l
  | l => parseUnsignedDec l

/-- A decimal integer with an optional leading sign (exponent part). -/
def parseSignedInt : List Char → Option Int
  | '-' :: l => if l ≠ [] ∧ l.all Char.isDigit then some (-(digitsVal l : Int)) else none
  | '+' :: l => if l ≠ [] ∧ l.all Char.isDigit then some (digitsVal l : Int) else none
  | l => if l ≠ [] ∧ l.all Char.isDigit then some (digitsVal l : Int) else none

/-- Scale a rational by a signed power of ten. -/
def scalePow10 (q : ℚ) (e : Int) : ℚ :=
  if 0 ≤ e then q * (10 : ℚ) ^ e.toNat else q / (10 : ℚ) ^ (-e).toNat

/-- Split at the first exponent marker `e`/`E`, if any. -/
def splitExpMark : List Char → List Char × Option (List Char)
  | [] => ([], none)
  | c :: cs =>
      if c = 'e' ∨ c = 'E' then ([], some cs)
      else
        let r := splitExpMark cs
        (c :: r.1, r.2)

/-- Model of `pd.to_numeric(..., errors="coerce")` on one already-stripped
text value: an optionally signed decimal with an optional integer
exponent; anything else coerces to NaN (`none`). -/
def toNumericChars (l : List Char) : Option ℚ :=
  match splitExpMark l with
  | (m, none) => parseSignedDec m
  | (m, some ex) =>
      match parseSignedDec m, parseSignedInt ex with
      | some q, some e => some (scalePow10 q e)
      | _, _ => none

/-- Index of the first occurrence of a character. -/
def firstIdxOf (c : Char) : List Char → Option Nat
  | [] => none
  | a :: as => if a = c then some 0 else (firstIdxOf c as).map (· + 1)

/-- Index of the last occurrence of a character. -/
def lastIdxOf (c : Char) (l : List Char) : Option Nat :=
  (firstIdxOf c l.reverse).map (fun k => l.length - 1 - k)

/-- Model of `Series.replace(r"\((.*)\)", r"-\1", regex=True)` on one
string: `re.sub` replaces the leftmost-greedy match of `\((.*)\)` — the
first `(` that precedes the final `)`, through that final `)` — by `-`
followed by the span between them; a string with no such match is kept
unchanged, and no second match can remain after the final `)`. -/
def parenSub (l : List Char) : List Char :=
  match lastIdxOf ')' l with
  | none => l
  | some j =>
      match firstIdxOf '(' (l.take j) with
      | none => l
      | some i => l.take i ++ '-' :: ((l.drop (i + 1)).take (j - i - 1) ++ l.drop (j + 1))

/-! ## Cell values and the column normalizers -/

/-- One cell of the tabular data: text, an exact number (pandas floats
are modelled by `ℚ`), a midnight datetime identified by its epoch day, or
the missing marker NaN/NaT. -/
inductive Value where
  | str (s : String)
  | num (q : ℚ)
  | date (t : Int)
  | nan
deriving DecidableEq, Repr

/-- Whether a cell is the missing marker. -/
def isNan : Value → Bool
  | .nan => true
  | _ => false

/-- pandas `Timestamp` bounds: a nanosecond count must fit a signed
64-bit integer, otherwise conversion under `errors="coerce"` yields NaT.
In bounds, the value's calendar day is its floored nanosecond count
divided by the nanoseconds of one day. -/
def nsPerDay : Int := 86400000000000

/-- Floor of a rational as an integer. -/
def ratFloor (q : ℚ) : Int := Int.fdiv q.num q.den

/-- Epoch day of a nanosecond count, or `none` when it overflows the
64-bit `Timestamp` range (coerced to NaT by pandas). -/
def tsOfNs (ns : ℚ) : Option Int :=
  if -(9223372036854775808 : ℚ) ≤ ns ∧ ns ≤ (9223372036854775807 : ℚ) then
    some (ratFloor (ns / (nsPerDay : ℚ)))
  else none

/-- ISO `YYYY-MM-DD` date text, validated against the calendar. -/
def parseIsoDate : List Char → Option Int
  | [y1, y2, y3, y4, '-', m1, m2, '-', d1, d2] =>
      if (y1.isDigit && y2.isDigit && y3.isDigit && y4.isDigit &&
          m1.isDigit && m2.isDigit && d1.isDigit && d2.isDigit) then
        let y : Int := digitsVal [y1, y2, y3, y4]
        let m : Int := digitsVal [m1, m2]
        let d : Int := digitsVal [d1, d2]
        if 1 ≤ m ∧ m ≤ 12 ∧ 1 ≤ d ∧ d ≤ daysInMonth y m then
          some (daysFromCivil y m d)
        else none
      else none
  | _ => none

/-- Model of the free-form parse
`pd.to_datetime(series, errors="coerce", infer_datetime_format=True)`
on one cell: a datetime cell passes through, a numeric cell is read as
nanoseconds since the epoch (the default unit), text is parsed as an ISO
date (the free-form parser accepts more text shapes than the claims
exercise; other text, like bare digit strings, coerces to NaT), and NaN
stays missing. -/
def to_datetime_free : Value → Option Int
  | .date t => some t
  | .num q => tsOfNs q
  | .str s => parseIsoDate s.data
  | .nan => none

/-- Model of
`pd.to_numeric(pd.Series(series).astype(str).str.replace(",","").str.strip(), errors="coerce")`
on one cell: a numeric cell round-trips through its text rendering, text
is cleaned then read as a number, a datetime renders as date text (not
numeric) and NaN renders as "nan" (coerced back to NaN). -/
def to_numeric_val : Value → Option ℚ
  | .num q => some q
  | .str s => toNumericChars (cleanChars s.data)
  | .date _ => none
  | .nan => none

/-- The plausibility year test of the source: `y.between(1990, 2100)`. -/
def yearInRange (t : Int) : Bool :=
  decide (1990 ≤ yearOf t) && decide (yearOf t ≤ 2100)

/-- The `score` function of `parse_date`: drop the unparsed entries; if
nothing is left the sentinel −1, otherwise the count of parsed values
with a year in [1990, 2100]. -/
def score (l : List (Option Int)) : Int :=
  let p := l.filterMap id
  if p.isEmpty then -1 else ((p.filter yearInRange).length : Int)

/-- The three numeric reinterpretations `parse_date` tries: spreadsheet
day serials since 1899-12-30, Unix seconds, Unix milliseconds. -/
inductive TimeUnit where
  | d
  | s
  | ms
deriving DecidableEq, Repr

/-- `pd.to_datetime(nums, unit=·, origin=·, errors="coerce")` on one
number: the nanosecond count it denotes (day serials are offset by the
1899-12-30 origin, 25569 days before the epoch), bounds-checked. -/
def numToDate : TimeUnit → ℚ → Option Int
  | .d, q => tsOfNs ((q - 25569) * (nsPerDay : ℚ))
  | .s, q => tsOfNs (q * 1000000000)
  | .ms, q => tsOfNs (q * 1000000)

/-- The baseline candidate of `parse_date`: free-form parse of every cell. -/
def baselineCand (series : List Value) : List (Option Int) :=
  series.map to_datetime_free

/-- The `nums` series of `parse_date`: every cell coerced to a number. -/
def numsOf (series : List Value) : List (Option ℚ) :=
  series.map to_numeric_val

/-- One numeric candidate of `parse_date`: `nums` under one unit. -/
def unitCand (series : List Value) (u : TimeUnit) : List (Option Int) :=
  (numsOf series).map (fun oq => oq.bind (numToDate u))

/-- Every candidate `parse_date` evaluates, in evaluation order: the
baseline first, then — only when some value is numeric — the day-serial,
seconds and milliseconds reinterpretations. -/
def dateCandidates (series : List Value) : List (List (Option Int)) :=
  baselineCand series ::
    (if 0 < ((numsOf series).filterMap id).length then
      [unitCand series .d, unitCand series .s, unitCand series .ms]
    else [])

/-- The selection loop of `parse_date`: keep `best` and its score,
replace them whenever a later candidate scores strictly higher. -/
def pickBest : List (Option Int) → Int → List (List (Option Int)) → List (Option Int)
  | best, _, [] => best
  | best, bsc, c :: cs =>
      if bsc < score c then pickBest c (score c) cs else pickBest best bsc cs

/-- `parse_date` of the source: score the free-form baseline, and when
any value is numeric also the three serial reinterpretations, keeping
the strictly best candidate (ties keep the earlier one); the result is
normalized to midnight, which the epoch-day representation builds in. -/
def parse_date (series : List Value) : List (Option Int) :=
  let s0 := baselineCand series
  let nums := numsOf series
  if 0 < (nums.filterMap id).length then
    pickBest s0 (score s0) [unitCand series .d, unitCand series .s, unitCand series .ms]
  else s0

/-- `parse_amount` on one cell: render as text, strip commas, strip
whitespace, apply the parenthetical regex substitution, coerce to a
number (see `to_numeric_val` for how non-text cells render). -/
def parse_amount_val : Value → Option ℚ
  | .num q => some q
  | .str s => toNumericChars (parenSub (cleanChars s.data))
  | .date _ => none
  | .nan => none

/-- `parse_amount` of the source, applied to a whole column. -/
def parse_amount (series : List Value) : List (Option ℚ) :=
  series.map parse_amount_val

/-! ## The tabular data model and the dataset preparer -/

/-- A DataFrame: ordered column labels and rows of cells. pandas keeps
every row rectangular (one cell per label); that invariant is the
`Rect` hypothesis of the theorems below. -/
structure DF where
  cols : List String
  rows : List (List Value)
deriving DecidableEq, Repr

/-- Rectangularity: every row has one cell per column label. -/
def Rect (df : DF) : Prop := ∀ r ∈ df.rows, r.length = df.cols.length

instance : DecidablePred Rect := fun df =>
  inferInstanceAs (Decidable (∀ r ∈ df.rows, r.length = df.cols.length))

/-- Index of the first column with a given label. -/
def idxOf : String → List String → Option Nat
  | _, [] => none
  | n, c :: cs => if c = n then some 0 else (idxOf n cs).map (· + 1)

/-- Position of a label among a DataFrame's columns. -/
def colIdx (df : DF) (n : String) : Option Nat := idxOf n df.cols

/-- `n in d.columns`. -/
def hasCol (df : DF) (n : String) : Bool := (colIdx df n).isSome

/-- The cell of row `r` under label `n` (NaN when the label is absent or
the row is short). -/
def cellAt (df : DF) (n : String) (r : List Value) : Value :=
  match colIdx df n with
  | some i => r.getD i Value.nan
  | none => Value.nan

/-- The column of cells under a label, `d[n]`. -/
def getCol (df : DF) (n : String) : List Value := df.rows.map (cellAt df n)

/-- Column assignment `d[n] = vals`: replace the column in place when the
label exists, else append it on the right. -/
def setCol (df : DF) (n : String) (vals : List Value) : DF :=
  match colIdx df n with
  | some i => { df with rows := List.zipWith (fun r v => r.set i v) df.rows vals }
  | none => { cols := df.cols ++ [n], rows := List.zipWith (fun r v => r ++ [v]) df.rows vals }

/-- `d.dropna(subset=ns)`: keep the rows with no NaN under the given labels. -/
def dropnaRows (df : DF) (ns : List String) : DF :=
  { df with rows := df.rows.filter (fun r => ns.all (fun n => !(isNan (cellAt df n r)))) }

/-- The expected GL headers of the source (`EXPECTED`). -/
def EXPECTED : List String :=
  ["seq", "Fund", "FSLI.1", "FSLI.3", "GL Account", "GL Account Name",
   "reference", "description", "date", "Net amount"]

/-- The inner scan of the reconciliation loop: the first raw label whose
normalized form matches the wanted name's. -/
def findMatch (want : String) : List String → Option String
  | [] => none
  | c :: cs => if _norm c = _norm want then some c else findMatch want cs

/-- The reconciliation loop over a list of wanted names. -/
def reconcileAux : List String → List String → List (String × String)
  | [], _ => []
  | w :: ws, cols =>
      match findMatch w cols with
      | some c => (c, w) :: reconcileAux ws cols
      | none => reconcileAux ws cols

/-- The `rename` mapping the source builds: for each expected name, the
first raw label matching it case/space-insensitively. -/
def reconcile (cols : List String) : List (String × String) :=
  reconcileAux EXPECTED cols

/-- First association of a raw label in the rename mapping. -/
def lookupRename : List (String × String) → String → Option String
  | [], _ => none
  | (c, w) :: ps, x => if c = x then some w else lookupRename ps x

/-- `d.rename(columns=rename)`: map every column label through the
mapping, leaving unmatched labels unchanged; rows are untouched. -/
def applyRename (df : DF) : DF :=
  { df with cols := df.cols.map (fun c => (lookupRename (reconcile df.cols) c).getD c) }

/-- Wrap a parsed date column back into cells. -/
def dateValOf (o : Option Int) : Value := o.elim Value.nan Value.date

/-- Wrap a parsed amount column back into cells. -/
def amtValOf (o : Option ℚ) : Value := o.elim Value.nan Value.num

/-- Truncate a datetime cell to its month start (`dt.to_period("M").dt.to_timestamp()`). -/
def monthValOf : Value → Value
  | .date t => .date (monthStart t)
  | _ => .nan

/-- The straight-line body of `prepare` after the required-column
checks: normalize the date and amount columns, drop the rows where
either failed, derive the month bucket. -/
def prepareBody (d : DF) : DF :=
  let d1 := setCol d "Date" ((parse_date (getCol d "date")).map dateValOf)
  let d2 := setCol d1 "Amount" ((parse_amount (getCol d1 "Net amount")).map amtValOf)
  let d3 := dropnaRows d2 ["Date", "Amount"]
  setCol d3 "Month" ((getCol d3 "Date").map monthValOf)

/-- `prepare` of the source: reconcile headers, stop with an error when a
required column is missing, then run the normalization body.
`st.error(...); st.stop()` is a hard stop of the run, modelled by
`Except.error`. -/
def prepare (df : DF) : Except String DF :=
  let d := applyRename df
  if hasCol d "date" = false then .error "Missing required 'date' column." else
  if hasCol d "Net amount" = false then .error "Missing required 'Net amount' column." else
  .ok (prepareBody d)

/-! ## The trial balance aggregator and the session

`trial_balance_view` groups by the present account dimensions and the
month, pivots months into columns, cumulates left to right and appends a
grand total. pandas `groupby` drops every record whose grouping key holds
a NaN; the pivot's rows are modelled as a set (pandas sorts them by key;
no claim depends on row order). -/

/-- The candidate dimension columns, in the source's order. -/
def dimColsPref : List String :=
  ["GL Account", "GL Account Name", "FSLI.1", "FSLI.3", "Fund"]

/-- The dimension tuple of one record. -/
def keyOf (df : DF) (idx : List String) (r : List Value) : List Value :=
  idx.map (fun n => cellAt df n r)

/-- The month key of one record (`none` unless the Month cell is a date,
in which case `groupby` would drop or fail on it; prepared data always
holds dates here). -/
def monthKey (df : DF) (r : List Value) : Option Int :=
  match cellAt df "Month" r with
  | .date t => some t
  | _ => none

/-- The amount of one record; a NaN amount adds nothing to a group sum. -/
def amtOf (df : DF) (r : List Value) : ℚ :=
  match cellAt df "Amount" r with
  | .num q => q
  | _ => 0

/-- A record `groupby(idx + ["Month"])` keeps: no NaN in the dimension
tuple and a month key. -/
def validRow (df : DF) (idx : List String) (r : List Value) : Bool :=
  (keyOf df idx r).all (fun v => ¬ isNan v) && (monthKey df r).isSome

/-- The records that enter the monthly aggregation. -/
def validRows (df : DF) (idx : List String) : List (List Value) :=
  df.rows.filter (validRow df idx)

/-- Insert into a strictly sorted list, keeping it sorted and duplicate-free. -/
def insertSorted (x : Int) : List Int → List Int
  | [] => [x]
  | y :: ys => if x < y then x :: y :: ys else if x = y then y :: ys else y :: insertSorted x ys

/-- The pivot's month columns: the distinct months of the aggregated
records in ascending calendar order (`sorted(pivot_mov.columns, key=Timestamp)`). -/
def tbMonths (df : DF) (idx : List String) : List Int :=
  ((validRows df idx).filterMap (monthKey df)).foldr insertSorted []

/-- The pivot's row keys: the distinct dimension tuples of the
aggregated records. -/
def tbKeys (df : DF) (idx : List String) : List (List Value) :=
  ((validRows df idx).map (keyOf df idx)).dedup

/-- The monthly movement of one dimension tuple: the summed `Amount` of
its records within one month (`groupby(idx+["Month"])["Amount"].sum()`,
zero when the tuple has no record there — `pivot_table(..., fill_value=0)`). -/
def movement (df : DF) (idx : List String) (key : List Value) (m : Int) : ℚ :=
  (((validRows df idx).filter (fun r => keyOf df idx r = key ∧ monthKey df r = some m)).map
    (amtOf df)).sum

/-- One pivot row before cumulation: the movements across the sorted months. -/
def movementRow (df : DF) (idx : List String) (key : List Value) : List ℚ :=
  (tbMonths df idx).map (movement df idx key)

/-- Running sum with a carried accumulator. -/
def cumsumFrom (a : ℚ) : List ℚ → List ℚ
  | [] => []
  | x :: xs => (a + x) :: cumsumFrom (a + x) xs

/-- `cumsum(axis=1)` along one pivot row. -/
def cumsum (l : List ℚ) : List ℚ := cumsumFrom 0 l

/-- `Grand Total` of one cumulated row: its last cell, or 0 when there
are no month columns. -/
def grandOf (l : List ℚ) : ℚ := (l.getLast?).getD 0

/-- The trial balance pivot: the dimension columns used, the sorted month
columns, and per dimension tuple the cumulated row and its grand total. -/
structure TB where
  idx : List String
  months : List Int
  table : List (List Value × List ℚ × ℚ)
deriving DecidableEq, Repr

/-- `trial_balance_view` of the source (its computational core): choose
the present dimension columns, fail when neither account column is
present (`st.error(...); return` — not a stop of the session), otherwise
group, pivot, cumulate and append the grand total. -/
def trial_balance_view (df : DF) : Except String TB :=
  let idx := dimColsPref.filter (fun c => hasCol df c)
  if "GL Account" ∉ idx ∧ "GL Account Name" ∉ idx then
    .error "Need 'GL Account' and 'GL Account Name' columns."
  else
    .ok { idx := idx
          months := tbMonths df idx
          table := (tbKeys df idx).map (fun k =>
            (k, cumsum (movementRow df idx k), grandOf (cumsum (movementRow df idx k)))) }

/-- The transaction-view column preference of the source
(`dashboard_view` / `transactions_download_button`). -/
def txColsPref : List String :=
  ["Date", "Amount", "Fund", "FSLI.1", "FSLI.3", "GL Account", "GL Account Name",
   "reference", "description", "seq"]

/-- The transaction table: the canonical records restricted to the
present preferred columns (`df[cols]`). -/
def txSelect (df : DF) : DF :=
  let cols := txColsPref.filter (fun c => hasCol df c)
  { cols := cols, rows := df.rows.map (fun r => cols.map (fun n => cellAt df n r)) }

/-- Which view the radio button selects. -/
inductive View where
  | dashboard
  | tb
deriving DecidableEq, Repr

/-- What the selected view displays: the transaction table, the trial
balance pivot, or the trial balance's own error box. -/
inductive ViewOut where
  | txTable (d : DF)
  | tbTable (t : TB)
  | tbError (msg : String)
deriving DecidableEq, Repr

/-- One rendered session: the transactions download offered above the
view, and the selected view's display. -/
structure Session where
  transactions : DF
  display : ViewOut
deriving DecidableEq, Repr

/-- `main` after a successful upload: `prepare` (whose `st.stop()` ends
the run, so its failure yields no output at all), then the transaction
download and the selected view; a trial-balance failure only replaces
that view's display. -/
def run_app (raw : DF) (v : View) : Except String Session :=
  (prepare raw).map (fun d =>
    { transactions := txSelect d
      display :=
        match v with
        | .dashboard => .txTable (txSelect d)
        | .tb =>
            match trial_balance_view d with
            | .ok t => .tbTable t
            | .error m => .tbError m })

/-! ## Specification predicates for the claims -/

/-- C1's property of a produced pivot: the dimension columns are the
present ones; the month columns are the distinct months of the
aggregated records in strictly ascending order; the table has one row
per distinct dimension tuple; per row, every month cell is the previous
cell plus that tuple's movement of the month, and the grand total is the
last month's cell (0 when there are no months). -/
def TBSpec (df : DF) (tb : TB) : Prop :=
  tb.idx = dimColsPref.filter (fun c => hasCol df c) ∧
  List.Chain' (· < ·) tb.months ∧
  (∀ m : Int, m ∈ tb.months ↔ ∃ r ∈ validRows df tb.idx, monthKey df r = some m) ∧
  (∀ k : List Value, (∃ r ∈ validRows df tb.idx, keyOf df tb.idx r = k) ↔
      ∃ cum g, (k, cum, g) ∈ tb.table) ∧
  (∀ e ∈ tb.table,
     e.2.1.length = tb.months.length ∧
     (∀ j, j < tb.months.length →
        e.2.1.getD j 0 =
          (if j = 0 then 0 else e.2.1.getD (j - 1) 0) +
            movement df tb.idx e.1 (tb.months.getD j 0)) ∧
     (tb.months = [] → e.2.2 = 0) ∧
     (tb.months ≠ [] → e.2.2 = e.2.1.getD (tb.months.length - 1) 0))

/-- C2's property of the strategy selection: `parse_date` returns one of
the evaluated candidates, its score is maximal among them, and every
earlier-evaluated candidate scores strictly lower (ties keep the
earlier candidate). -/
def DateSelSpec (series : List Value) : Prop :=
  ∃ i, i < (dateCandidates series).length ∧
    parse_date series = (dateCandidates series).getD i [] ∧
    (∀ j, j < (dateCandidates series).length →
      score ((dateCandidates series).getD j []) ≤ score ((dateCandidates series).getD i [])) ∧
    (∀ j, j < i →
      score ((dateCandidates series).getD j []) < score ((dateCandidates series).getD i []))

/-- The rewrite step as claim C3 words it: ONLY a value fully wrapped in
parentheses is rewritten, into a minus sign followed by its inside. -/
def fullParenSub (l : List Char) : List Char :=
  if 2 ≤ l.length ∧ l.headD ' ' = '(' ∧ l.getLast? = some ')' then
    '-' :: (l.drop 1).dropLast
  else l

/-- The amount normalizer as claim C3 describes it (differs from the
source only in the rewrite step): render as text, strip commas, trim,
rewrite only fully wrapped values, coerce. -/
def parse_amount_claimC3 : Value → Option ℚ
  | .num q => some q
  | .str s => toNumericChars (fullParenSub (cleanChars s.data))
  | .date _ => none
  | .nan => none

/-- C5's property: preparation succeeds, exactly the rows whose date or
amount failed to parse are dropped, and every surviving record has a
date and a numeric amount. -/
def badCount (df : DF) : Nat :=
  (((parse_date (getCol (applyRename df) "date")).zip
      (parse_amount (getCol (applyRename df) "Net amount"))).filter
    (fun p => p.1.isNone || p.2.isNone)).length

/-- C5's conclusion for a raw dataset. -/
def C5Spec (df : DF) : Prop :=
  ∃ d, prepare df = .ok d ∧
    d.rows.length = df.rows.length - badCount df ∧
    ∀ r ∈ d.rows, (∃ t, cellAt d "Date" r = .date t) ∧ (∃ q, cellAt d "Amount" r = .num q)

/-- C6's conclusion for a canonical record set `d` prepared from `raw`:
without both account columns the trial balance fails with its message
while the session and the transaction table survive; with either
present it produces a pivot. -/
def C6Spec (raw d : DF) : Prop :=
  ((hasCol d "GL Account" = false ∧ hasCol d "GL Account Name" = false) →
     trial_balance_view d = .error "Need 'GL Account' and 'GL Account Name' columns." ∧
     run_app raw .tb =
       .ok ⟨txSelect d, .tbError "Need 'GL Account' and 'GL Account Name' columns."⟩ ∧
     run_app raw .dashboard = .ok ⟨txSelect d, .txTable (txSelect d)⟩) ∧
  ((hasCol d "GL Account" = true ∨ hasCol d "GL Account Name" = true) →
     ∃ t, trial_balance_view d = .ok t)

/-- C7's conclusion: every canonical record's Month cell is its Date
cell truncated to the month start. -/
def C7Spec (d : DF) : Prop :=
  ∀ r ∈ d.rows, ∃ t, cellAt d "Date" r = .date t ∧ cellAt d "Month" r = .date (monthStart t)

/-! ## Concrete inputs used by the claims' instances and witnesses -/

/-- C1's instance: one account with movements Jan = 100, Feb = −30,
Mar = 0 (months 2025-01-01, 2025-02-01, 2025-03-01 as epoch days). -/
def c1df : DF :=
  ⟨["GL Account", "Amount", "Month"],
   [[.str "1000", .num 100, .date 20089],
    [.str "1000", .num (-30), .date 20120],
    [.str "1000", .num 0, .date 20148]]⟩

/-- The pivot C1's instance must produce: cumulative columns 100, 70, 70
and grand total 70. -/
def c1tb : TB :=
  ⟨["GL Account"], [20089, 20120, 20148], [([Value.str "1000"], [100, 70, 70], 70)]⟩

/-- C2's instance: a numeric column whose day-serial reading lands in
2023 while the seconds/milliseconds readings land in 1970. -/
def c2series : List Value := [.num 45000, .num 45100]

/-- C10's instance: digit strings the free-form parser resolves nowhere,
whose day-serial reading lands in 1900 — outside [1990, 2100]. -/
def c10series : List Value := [.str "100", .str "200"]

/-- C4's instance: a dataset with no column reconciling to `date`. -/
def c4df : DF := ⟨["Net amount"], [[.num 5]]⟩

/-- C4's second instance: `date` present, `Net amount` absent. -/
def c4dfB : DF := ⟨["DATE "], [[.str "2025-01-31"]]⟩

/-- C5's instance: three raw rows of which one has an unparseable date. -/
def c5df : DF :=
  ⟨["date", "Net amount"],
   [[.str "2025-01-31", .str "1,234.56"],
    [.str "bad", .str "10"],
    [.str "2025-02-05", .str "(5)"]]⟩

/-- C6's instance: a raw dataset with no account dimension columns. -/
def c6raw : DF := ⟨["date", "Net amount"], [[.str "2025-01-31", .str "100"]]⟩

/-- What `prepare` makes of `c6raw`. -/
def c6d : DF :=
  ⟨["date", "Net amount", "Date", "Amount", "Month"],
   [[.str "2025-01-31", .str "100", .date 20119, .num 100, .date 20089]]⟩

/-- C7's instance: one record dated 2025-01-31. -/
def c7df : DF := ⟨["date", "Net amount"], [[.str "2025-01-31", .str "1"]]⟩

/-- What `prepare` makes of `c7df`: Date 2025-01-31 (epoch day 20119),
Month 2025-01-01 (epoch day 20089). -/
def c7d : DF :=
  ⟨["date", "Net amount", "Date", "Amount", "Month"],
   [[.str "2025-01-31", .str "1", .date 20119, .num 1, .date 20089]]⟩

/-- Equality of fallible results is decidable (needed by concrete
evaluations in witnesses). -/
instance exceptDecEq {ε α : Type} [DecidableEq ε] [DecidableEq α] :
    DecidableEq (Except ε α)
  | .ok a, .ok b =>
      if h : a = b then .isTrue (by rw [h]) else .isFalse (by simp [h])
  | .error a, .error b =>
      if h : a = b then .isTrue (by rw [h]) else .isFalse (by simp [h])
  | .ok _, .error _ => .isFalse (by simp)
  | .error _, .ok _ => .isFalse (by simp)

/-! ## Helper lemmas: lists -/

theorem getD_set_self (v d : Value) :
    ∀ (l : List Value) (i : Nat), i < l.length → (l.set i v).getD i d = v := by
  intro l
  induction l with
  | nil => intro i h; simp at h
  | cons x xs ih =>
    intro i h
    cases i with
    | zero => rfl
    | succ j => exact ih j (Nat.lt_of_succ_lt_succ h)

theorem getD_set_ne (v d : Value) :
    ∀ (l : List Value) (i j : Nat), i ≠ j → (l.set i v).getD j d = l.getD j d := by
  intro l
  induction l with
  | nil => intro i j _; simp
  | cons x xs ih =>
    intro i j hne
    cases i with
    | zero =>
      cases j with
      | zero => exact absurd rfl hne
      | succ k => rfl
    | succ i2 =>
      cases j with
      | zero => rfl
      | succ k => exact ih i2 k (fun he => hne (by rw [he]))

theorem getD_append_left (d : Value) :
    ∀ (l s : List Value) (j : Nat), j < l.length → (l ++ s).getD j d = l.getD j d := by
  intro l
  induction l with
  | nil => intro s j h; simp at h
  | cons x xs ih =>
    intro s j h
    cases j with
    | zero => rfl
    | succ k => exact ih s k (Nat.lt_of_succ_lt_succ h)

theorem getD_append_self (v d : Value) :
    ∀ (l : List Value), (l ++ [v]).getD l.length d = v := by
  intro l
  induction l with
  | nil => rfl
  | cons x xs ih => exact ih

theorem zipWith_snd_eq {A B : Type} :
    ∀ (l1 : List A) (l2 : List B), l1.length = l2.length →
      List.zipWith (fun _ v => v) l1 l2 = l2 := by
  intro l1
  induction l1 with
  | nil => intro l2 h; cases l2 <;> simp_all
  | cons x xs ih =>
    intro l2 h
    cases l2 with
    | nil => simp at h
    | cons y ys => simpa using ih ys (by simpa using h)

theorem zipWith_fst_map {A B C : Type} (f : A → C) :
    ∀ (l1 : List A) (l2 : List B), l1.length = l2.length →
      List.zipWith (fun r _ => f r) l1 l2 = l1.map f := by
  intro l1
  induction l1 with
  | nil => intro l2 h; simp
  | cons x xs ih =>
    intro l2 h
    cases l2 with
    | nil => simp at h
    | cons y ys => simpa using ih ys (by simpa using h)

theorem zipWith_congr_left {A B C : Type} (f g : A → B → C) :
    ∀ (l1 : List A) (l2 : List B), (∀ x ∈ l1, ∀ y, f x y = g x y) →
      List.zipWith f l1 l2 = List.zipWith g l1 l2 := by
  intro l1
  induction l1 with
  | nil => intro l2 _; simp
  | cons x xs ih =>
    intro l2 h
    cases l2 with
    | nil => simp
    | cons y ys =>
      simp only [List.zipWith]
      rw [h x (by simp) y, ih ys (fun a ha b => h a (by simp [ha]) b)]

theorem mem_zipWith {A B C : Type} (f : A → B → C) :
    ∀ (l1 : List A) (l2 : List B) (c : C), c ∈ List.zipWith f l1 l2 →
      ∃ a ∈ l1, ∃ b ∈ l2, c = f a b := by
  intro l1
  induction l1 with
  | nil => intro l2 c h; simp at h
  | cons x xs ih =>
    intro l2 c h
    cases l2 with
    | nil => simp at h
    | cons y ys =>
      simp only [List.zipWith, List.mem_cons] at h
      rcases h with h | h
      · exact ⟨x, by simp, y, by simp, h⟩
      · obtain ⟨a, ha, b, hb, he⟩ := ih ys c h
        exact ⟨a, by simp [ha], b, by simp [hb], he⟩

theorem zipWith_map_self {A B C : Type} (f : A → B → C) (g : A → B) :
    ∀ (l : List A), List.zipWith f l (l.map g) = l.map (fun x => f x (g x)) := by
  intro l
  induction l with
  | nil => rfl
  | cons x xs ih => simp only [List.map, List.zipWith, ih]

theorem filter_two_proj {A : Type} (f g : A → Value) (P : Value → Value → Bool) :
    ∀ (rows : List A),
      (rows.filter (fun r => P (f r) (g r))).length =
        (((rows.map f).zip (rows.map g)).filter (fun p => P p.1 p.2)).length := by
  intro rows
  induction rows with
  | nil => rfl
  | cons r rs ih =>
    cases hp : P (f r) (g r) <;>
      simp [List.filter_cons, List.zip_cons_cons, hp] at ih ⊢ <;> omega

theorem filter_not_length {A : Type} (p : A → Bool) :
    ∀ (l : List A), (l.filter (fun x => !(p x))).length = l.length - (l.filter p).length := by
  intro l
  induction l with
  | nil => rfl
  | cons x xs ih =>
    have hle : (xs.filter p).length ≤ xs.length := List.length_filter_le p xs
    cases hp : p x <;> simp [List.filter_cons, hp, ih] <;> omega

theorem getD_map_int (f : Int → ℚ) :
    ∀ (l : List Int) (j : Nat), j < l.length → (l.map f).getD j 0 = f (l.getD j 0) := by
  intro l
  induction l with
  | nil => intro j h; simp at h
  | cons x xs ih =>
    intro j h
    cases j with
    | zero => rfl
    | succ k => exact ih k (Nat.lt_of_succ_lt_succ h)

theorem getLast?_eq_getD (l : List ℚ) (h : l ≠ []) :
    l.getLast? = some (l.getD (l.length - 1) 0) := by
  induction l with
  | nil => exact absurd rfl h
  | cons x xs ih =>
    cases xs with
    | nil => rfl
    | cons y ys =>
      rw [List.getLast?_cons_cons, ih (by simp)]
      simp

theorem cumsumFrom_length : ∀ (l : List ℚ) (a : ℚ), (cumsumFrom a l).length = l.length := by
  intro l
  induction l with
  | nil => intro a; rfl
  | cons x xs ih => intro a; simp [cumsumFrom, ih]

theorem cumsum_length (l : List ℚ) : (cumsum l).length = l.length := cumsumFrom_length l 0

theorem cumsumFrom_getD :
    ∀ (l : List ℚ) (a : ℚ) (j : Nat), j < l.length →
      (cumsumFrom a l).getD j 0 =
        (if j = 0 then a else (cumsumFrom a l).getD (j - 1) 0) + l.getD j 0 := by
  intro l
  induction l with
  | nil => intro a j h; simp at h
  | cons x xs ih =>
    intro a j h
    cases j with
    | zero => simp [cumsumFrom]
    | succ j2 =>
      have h2 : j2 < xs.length := Nat.lt_of_succ_lt_succ h
      simp only [cumsumFrom, List.getD_cons_succ, Nat.succ_ne_zero, if_false,
        Nat.succ_sub_one]
      rw [ih (a + x) j2 h2]
      cases j2 with
      | zero => simp
      | succ k => simp

theorem cumsum_getD (l : List ℚ) (j : Nat) (h : j < l.length) :
    (cumsum l).getD j 0 =
      (if j = 0 then 0 else (cumsum l).getD (j - 1) 0) + l.getD j 0 :=
  cumsumFrom_getD l 0 j h

theorem insertSorted_mem (a x : Int) :
    ∀ (l : List Int), x ∈ insertSorted a l ↔ x = a ∨ x ∈ l := by
  intro l
  induction l with
  | nil => simp [insertSorted]
  | cons y ys ih =>
    simp only [insertSorted]
    split
    · simp [List.mem_cons]
    · split
      · rename_i hlt heq
        subst heq
        simp only [List.mem_cons]
        constructor
        · intro h; tauto
        · intro h; tauto
      · simp only [List.mem_cons, ih]
        tauto

theorem insertSorted_chain (a : Int) :
    ∀ (l : List Int), List.Chain' (· < ·) l → List.Chain' (· < ·) (insertSorted a l) := by
  intro l
  induction l with
  | nil => intro _; simp [insertSorted]
  | cons y ys ih =>
    intro hch
    simp only [insertSorted]
    split
    · rename_i hlt
      exact List.chain'_cons.mpr ⟨hlt, hch⟩
    · split
      · exact hch
      · rename_i h1 h2
        have hya : y < a := by omega
        rw [List.chain'_cons']
        refine ⟨?_, ih hch.tail⟩
        intro b hb
        cases ys with
        | nil =>
          simp [insertSorted] at hb
          omega
        | cons y2 ys2 =>
          have hy2 : y < y2 := (List.chain'_cons.mp hch).1
          simp only [insertSorted] at hb
          split at hb
          · simp at hb; omega
          · split at hb
            · simp at hb; omega
            · simp at hb; omega

theorem foldr_insertSorted_chain (l : List Int) :
    List.Chain' (· < ·) (l.foldr insertSorted []) := by
  induction l with
  | nil => simp
  | cons x xs ih => exact insertSorted_chain x _ ih

theorem foldr_insertSorted_mem (l : List Int) (x : Int) :
    x ∈ l.foldr insertSorted [] ↔ x ∈ l := by
  induction l with
  | nil => simp
  | cons y ys ih =>
    simp only [List.foldr, insertSorted_mem, ih, List.mem_cons]

/-! ## Helper lemmas: the date strategy selection -/

theorem pickBest_spec :
    ∀ (cs : List (List (Option Int))) (b : List (Option Int)),
      ∃ i, i < (b :: cs).length ∧
        pickBest b (score b) cs = (b :: cs).getD i [] ∧
        (∀ j, j < (b :: cs).length →
          score ((b :: cs).getD j []) ≤ score ((b :: cs).getD i [])) ∧
        (∀ j, j < i → score ((b :: cs).getD j []) < score ((b :: cs).getD i [])) := by
  intro cs
  induction cs with
  | nil =>
    intro b
    refine ⟨0, by simp, rfl, ?_, by omega⟩
    intro j hj
    have hj0 : j = 0 := by simpa using hj
    subst hj0
    exact le_refl _
  | cons c cs ih =>
    intro b
    by_cases hbc : score b < score c
    · obtain ⟨i, hlen, heq, hmax, hstrict⟩ := ih c
      have hres : pickBest b (score b) (c :: cs) = pickBest c (score c) cs := by
        simp [pickBest, hbc]
      have hcle : score c ≤ score ((c :: cs).getD i []) := hmax 0 (by simp)
      refine ⟨i + 1, by simpa using hlen, ?_, ?_, ?_⟩
      · rw [hres, heq]; rfl
      · intro j hj
        cases j with
        | zero =>
          simp only [List.getD_cons_zero, List.getD_cons_succ]
          omega
        | succ j2 =>
          simp only [List.getD_cons_succ]
          exact hmax j2 (by simpa using hj)
      · intro j hj
        cases j with
        | zero =>
          simp only [List.getD_cons_zero, List.getD_cons_succ]
          omega
        | succ j2 =>
          simp only [List.getD_cons_succ]
          exact hstrict j2 (by omega)
    · obtain ⟨i, hlen, heq, hmax, hstrict⟩ := ih b
      have hres : pickBest b (score b) (c :: cs) = pickBest b (score b) cs := by
        simp [pickBest, hbc]
      have hble : score b ≤ score ((b :: cs).getD i []) := hmax 0 (by simp)
      cases i with
      | zero =>
        refine ⟨0, by simp, by rw [hres, heq]; rfl, ?_, by omega⟩
        intro j hj
        cases j with
        | zero => exact le_refl _
        | succ j2 =>
          cases j2 with
          | zero =>
            simp only [List.getD_cons_zero, List.getD_cons_succ]
            simp only [List.getD_cons_zero] at heq hble ⊢
            omega
          | succ j3 =>
            simp only [List.getD_cons_succ, List.getD_cons_zero] at hmax ⊢
            exact hmax (j3 + 1) (by simpa using hj)
      | succ i2 =>
        have hb_lt : score b < score ((b :: cs).getD (i2 + 1) []) :=
          hstrict 0 (by omega)
        refine ⟨i2 + 2, by simpa using hlen, ?_, ?_, ?_⟩
        · rw [hres, heq]; rfl
        · intro j hj
          cases j with
          | zero =>
            simp only [List.getD_cons_zero, List.getD_cons_succ] at hb_lt hble ⊢
            simp only [List.getD_cons_succ] at hmax
            have := hmax 0 (by simp)
            simp only [List.getD_cons_zero] at this
            omega
          | succ j2 =>
            cases j2 with
            | zero =>
              simp only [List.getD_cons_succ, List.getD_cons_zero] at hb_lt ⊢
              omega
            | succ j3 =>
              simp only [List.getD_cons_succ] at hmax ⊢
              exact hmax (j3 + 1) (by simpa using hj)
        · intro j hj
          cases j with
          | zero =>
            simp only [List.getD_cons_zero, List.getD_cons_succ] at hb_lt ⊢
            exact hb_lt
          | succ j2 =>
            cases j2 with
            | zero =>
              simp only [List.getD_cons_succ, List.getD_cons_zero] at hb_lt ⊢
              omega
            | succ j3 =>
              simp only [List.getD_cons_succ] at hstrict ⊢
              exact hstrict (j3 + 1) (by omega)

/-! ## Helper lemmas: the DataFrame operations -/

theorem idxOf_lt (n : String) :
    ∀ (cols : List String) (i : Nat), idxOf n cols = some i → i < cols.length := by
  intro cols
  induction cols with
  | nil => intro i h; simp [idxOf] at h
  | cons c cs ih =>
    intro i h
    simp only [idxOf] at h
    simp only [List.length_cons]
    split at h
    · simp at h; omega
    · cases hi : idxOf n cs with
      | none => rw [hi] at h; simp at h
      | some k =>
        rw [hi] at h
        simp only [Option.map_some', Option.some.injEq] at h
        have := ih k hi
        omega

theorem idxOf_label (n : String) :
    ∀ (cols : List String) (i : Nat), idxOf n cols = some i → cols.getD i "" = n := by
  intro cols
  induction cols with
  | nil => intro i h; simp [idxOf] at h
  | cons c cs ih =>
    intro i h
    simp only [idxOf] at h
    split at h
    · rename_i hc
      simp only [Option.some.injEq] at h
      subst h
      exact hc
    · cases hi : idxOf n cs with
      | none => rw [hi] at h; simp at h
      | some k =>
        rw [hi] at h
        simp only [Option.map_some', Option.some.injEq] at h
        subst h
        exact ih k hi

theorem idxOf_append_some (n : String) :
    ∀ (cols tail : List String) (i : Nat), idxOf n cols = some i →
      idxOf n (cols ++ tail) = some i := by
  intro cols
  induction cols with
  | nil => intro tail i h; simp [idxOf] at h
  | cons c cs ih =>
    intro tail i h
    simp only [idxOf] at h
    simp only [List.cons_append, List.append_eq, idxOf]
    split at h
    · rename_i hc
      rw [if_pos hc]
      exact h
    · rename_i hc
      rw [if_neg hc]
      cases hi : idxOf n cs with
      | none => rw [hi] at h; simp at h
      | some k =>
        rw [hi] at h
        rw [ih tail k hi]
        exact h

theorem idxOf_append_none (n : String) :
    ∀ (cols tail : List String), idxOf n cols = none →
      idxOf n (cols ++ tail) = (idxOf n tail).map (· + cols.length) := by
  intro cols
  induction cols with
  | nil =>
    intro tail h
    simp only [List.nil_append, List.length_nil]
    cases idxOf n tail <;> simp
  | cons c cs ih =>
    intro tail h
    simp only [idxOf] at h
    split at h
    · simp at h
    · rename_i hc
      have h2 : idxOf n cs = none := by
        cases hi : idxOf n cs with
        | none => rfl
        | some k => rw [hi] at h; simp at h
      simp only [List.cons_append, List.append_eq, idxOf]
      rw [if_neg hc, ih tail h2]
      cases idxOf n tail with
      | none => rfl
      | some k =>
        simp only [Option.map_some', Option.some.injEq, List.length_cons]
        omega

/-- Distinct labels sit at distinct column positions. -/
theorem colIdx_ne (df : DF) (m n : String) (hmn : m ≠ n) (i k : Nat)
    (hn : colIdx df n = some i) (hm : colIdx df m = some k) : k ≠ i := by
  intro hki
  have h1 := idxOf_label n df.cols i hn
  have h2 := idxOf_label m df.cols k hm
  rw [hki] at h2
  exact hmn (h2.symm.trans h1)

/-- The one master lemma about column assignment: the new rows are a
zip of the old rows with the assigned cells through an update function
that stores the cell under the assigned label and keeps every other
label's cell; the columns stay or gain the label on the right. -/
theorem setCol_spec (df : DF) (n : String) (vals : List Value) :
    ∃ u : List Value → Value → List Value,
      (setCol df n vals).rows = List.zipWith u df.rows vals ∧
      ((setCol df n vals).cols = df.cols ∨ (setCol df n vals).cols = df.cols ++ [n]) ∧
      (∀ r v, r.length = df.cols.length →
        (u r v).length = (setCol df n vals).cols.length) ∧
      (∀ r v, r.length = df.cols.length → cellAt (setCol df n vals) n (u r v) = v) ∧
      (∀ m, m ≠ n → ∀ r v, r.length = df.cols.length →
        cellAt (setCol df n vals) m (u r v) = cellAt df m r) := by
  cases hidx : colIdx df n with
  | some i =>
    have hcols : (setCol df n vals).cols = df.cols := by
      simp [setCol, hidx]
    have hi : i < df.cols.length := idxOf_lt n df.cols i hidx
    refine ⟨fun r v => r.set i v, by simp [setCol, hidx], Or.inl hcols, ?_, ?_, ?_⟩
    · intro r v hr
      simp [hcols, hr]
    · intro r v hr
      have hci : colIdx (setCol df n vals) n = some i := by
        unfold colIdx
        rw [hcols]
        exact hidx
      simp only [cellAt, hci]
      exact getD_set_self v Value.nan r i (by omega)
    · intro m hm r v hr
      have hcm : colIdx (setCol df n vals) m = colIdx df m := by
        unfold colIdx
        rw [hcols]
      simp only [cellAt, hcm]
      cases hk : colIdx df m with
      | none => rfl
      | some k =>
        exact getD_set_ne v Value.nan r i k (colIdx_ne df m n hm i k hidx hk).symm
  | none =>
    have hcols : (setCol df n vals).cols = df.cols ++ [n] := by
      simp [setCol, hidx]
    refine ⟨fun r v => r ++ [v], by simp [setCol, hidx], Or.inr hcols, ?_, ?_, ?_⟩
    · intro r v hr
      simp [hcols, hr]
    · intro r v hr
      have hci : colIdx (setCol df n vals) n = some df.cols.length := by
        unfold colIdx
        rw [hcols, idxOf_append_none n df.cols [n] hidx]
        simp [idxOf]
      simp only [cellAt, hci]
      rw [← hr]
      exact getD_append_self v Value.nan r
    · intro m hm r v hr
      have hcm : colIdx (setCol df n vals) m = colIdx df m := by
        unfold colIdx
        rw [hcols]
        cases hk : idxOf m df.cols with
        | some k => exact idxOf_append_some m df.cols [n] k hk
        | none =>
          rw [idxOf_append_none m df.cols [n] hk]
          simp [idxOf, Ne.symm hm]
      simp only [cellAt, hcm]
      cases hk : colIdx df m with
      | none => rfl
      | some k =>
        have hkl : k < df.cols.length := idxOf_lt m df.cols k hk
        exact getD_append_left Value.nan r [v] k (by omega)

/-- Assigning then reading the same label gives the assigned cells. -/
theorem getCol_setCol_self (df : DF) (n : String) (vals : List Value)
    (hR : Rect df) (hlen : vals.length = df.rows.length) :
    getCol (setCol df n vals) n = vals := by
  obtain ⟨u, hrows, -, -, hself, -⟩ := setCol_spec df n vals
  unfold getCol
  rw [hrows, List.map_zipWith]
  rw [zipWith_congr_left _ (fun _ v => v) df.rows vals
    (fun r hr v => hself r v (hR r hr))]
  exact zipWith_snd_eq df.rows vals hlen.symm

/-- Assigning one label leaves every other column unchanged. -/
theorem getCol_setCol_other (df : DF) (n m : String) (vals : List Value)
    (hm : m ≠ n) (hR : Rect df) (hlen : vals.length = df.rows.length) :
    getCol (setCol df n vals) m = getCol df m := by
  obtain ⟨u, hrows, -, -, -, hother⟩ := setCol_spec df n vals
  unfold getCol
  rw [hrows, List.map_zipWith]
  rw [zipWith_congr_left _ (fun r _ => cellAt df m r) df.rows vals
    (fun r hr v => hother m hm r v (hR r hr))]
  exact zipWith_fst_map (cellAt df m) df.rows vals hlen.symm

/-- Column assignment keeps rectangularity. -/
theorem Rect_setCol (df : DF) (n : String) (vals : List Value) (hR : Rect df) :
    Rect (setCol df n vals) := by
  obtain ⟨u, hrows, -, hulen, -, -⟩ := setCol_spec df n vals
  intro r hr
  rw [hrows] at hr
  obtain ⟨a, ha, b, -, he⟩ := mem_zipWith u df.rows vals r hr
  subst he
  exact hulen a b (hR a ha)

/-- Column assignment zips, so the row count is the smaller side. -/
theorem setCol_rows_length (df : DF) (n : String) (vals : List Value)
    (hlen : vals.length = df.rows.length) :
    (setCol df n vals).rows.length = df.rows.length := by
  obtain ⟨u, hrows, -, -, -, -⟩ := setCol_spec df n vals
  rw [hrows, List.length_zipWith, hlen]
  omega

/-- Renaming changes no rows. -/
theorem applyRename_rows (df : DF) : (applyRename df).rows = df.rows := rfl

/-- Renaming keeps the column count. -/
theorem applyRename_cols_length (df : DF) :
    (applyRename df).cols.length = df.cols.length := by
  simp [applyRename]

/-- Renaming keeps rectangularity. -/
theorem Rect_applyRename (df : DF) (hR : Rect df) : Rect (applyRename df) := by
  intro r hr
  rw [applyRename_rows] at hr
  rw [applyRename_cols_length]
  exact hR r hr

/-- Dropping rows keeps rectangularity, the columns and the cell reads. -/
theorem Rect_dropna (df : DF) (ns : List String) (hR : Rect df) :
    Rect (dropnaRows df ns) := by
  intro r hr
  exact hR r (List.mem_of_mem_filter hr)

/-- The selection characterization holds of every column. -/
theorem dateSel (series : List Value) : DateSelSpec series := by
  unfold DateSelSpec
  by_cases h : 0 < ((numsOf series).filterMap id).length
  · have hc : dateCandidates series =
        baselineCand series ::
          [unitCand series .d, unitCand series .s, unitCand series .ms] := by
      simp [dateCandidates, h]
    have hp : parse_date series =
        pickBest (baselineCand series) (score (baselineCand series))
          [unitCand series .d, unitCand series .s, unitCand series .ms] := by
      simp [parse_date, h]
    rw [hc, hp]
    exact pickBest_spec _ (baselineCand series)
  · have hc : dateCandidates series = [baselineCand series] := by
      simp [dateCandidates, h]
    have hp : parse_date series = baselineCand series := by
      simp [parse_date, h]
    rw [hc, hp]
    refine ⟨0, by simp, rfl, ?_, by omega⟩
    intro j hj
    have hj0 : j = 0 := by simpa using hj
    subst hj0
    exact le_refl _

/-- Every candidate column has the length of the input column. -/
theorem dateCandidates_lengths (series : List Value) :
    ∀ c ∈ dateCandidates series, c.length = series.length := by
  intro c hc
  simp only [dateCandidates] at hc
  rcases List.mem_cons.mp hc with h | h
  · subst h; simp [baselineCand]
  · split at h
    · simp only [List.mem_cons, List.mem_singleton] at h
      rcases h with h | h | h | h
      all_goals try (subst h; simp [unitCand, numsOf])
      simp at h
    · simp at h

/-- `parse_date` keeps the column length. -/
theorem parse_date_length (series : List Value) :
    (parse_date series).length = series.length := by
  obtain ⟨i, hlen, heq, -, -⟩ := dateSel series
  rw [heq]
  have hmem : (dateCandidates series).getD i [] ∈ dateCandidates series := by
    have := List.getD_eq_getElem (dateCandidates series) [] hlen
    rw [this]
    exact List.getElem_mem hlen
  exact dateCandidates_lengths series _ hmem

/-! ## Helper lemmas: the preparer pipeline -/

/-- Dropping rows looks at the same columns. -/
theorem cellAt_dropna (df : DF) (ns : List String) (n : String) (r : List Value) :
    cellAt (dropnaRows df ns) n r = cellAt df n r := rfl

/-- `parse_amount` keeps the column length. -/
theorem parse_amount_length (series : List Value) :
    (parse_amount series).length = series.length := by
  simp [parse_amount]

/-- What `prepare` does on a dataset whose reconciled headers carry both
required columns: it succeeds, drops exactly the rows whose date or
amount failed to parse, and every surviving record carries a parsed
Date, a parsed Amount, and the Month derived from that Date. -/
theorem prepare_spec (df : DF) (hR : Rect df)
    (h1 : hasCol (applyRename df) "date" = true)
    (h2 : hasCol (applyRename df) "Net amount" = true) :
    ∃ d, prepare df = .ok d ∧
      d.rows.length = df.rows.length - badCount df ∧
      C7Spec d ∧
      (∀ r ∈ d.rows,
        (∃ t, cellAt d "Date" r = .date t) ∧ (∃ q, cellAt d "Amount" r = .num q)) := by
  obtain ⟨d0, hd0⟩ : ∃ x, applyRename df = x := ⟨_, rfl⟩
  have hR0 : Rect d0 := hd0 ▸ Rect_applyRename df hR
  have hN0 : d0.rows.length = df.rows.length := by rw [← hd0, applyRename_rows]
  obtain ⟨dates, hdates⟩ : ∃ x, parse_date (getCol d0 "date") = x := ⟨_, rfl⟩
  have hdatesN : dates.length = df.rows.length := by
    rw [← hdates, parse_date_length]
    simp [getCol, hN0]
  obtain ⟨vd, hvd⟩ : ∃ x, dates.map dateValOf = x := ⟨_, rfl⟩
  have hvdN : vd.length = d0.rows.length := by
    rw [← hvd, List.length_map, hdatesN, hN0]
  obtain ⟨d1, hd1⟩ : ∃ x, setCol d0 "Date" vd = x := ⟨_, rfl⟩
  have hR1 : Rect d1 := hd1 ▸ Rect_setCol d0 "Date" vd hR0
  have hN1 : d1.rows.length = df.rows.length := by
    rw [← hd1, setCol_rows_length d0 "Date" vd hvdN, hN0]
  have hbridge : getCol d1 "Net amount" = getCol d0 "Net amount" := by
    rw [← hd1]
    exact getCol_setCol_other d0 "Date" "Net amount" vd (by decide) hR0 hvdN
  obtain ⟨amounts, hamounts⟩ : ∃ x, parse_amount (getCol d1 "Net amount") = x := ⟨_, rfl⟩
  have hamounts0 : parse_amount (getCol d0 "Net amount") = amounts := by
    rw [← hbridge, hamounts]
  have hamountsN : amounts.length = df.rows.length := by
    rw [← hamounts, parse_amount_length]
    simp [getCol, hN1]
  obtain ⟨va, hva⟩ : ∃ x, amounts.map amtValOf = x := ⟨_, rfl⟩
  have hvaN : va.length = d1.rows.length := by
    rw [← hva, List.length_map, hamountsN, hN1]
  obtain ⟨d2, hd2⟩ : ∃ x, setCol d1 "Amount" va = x := ⟨_, rfl⟩
  have hR2 : Rect d2 := hd2 ▸ Rect_setCol d1 "Amount" va hR1
  have hN2 : d2.rows.length = df.rows.length := by
    rw [← hd2, setCol_rows_length d1 "Amount" va hvaN, hN1]
  have hColD2 : getCol d2 "Date" = vd := by
    rw [← hd2, getCol_setCol_other d1 "Amount" "Date" va (by decide) hR1 hvaN, ← hd1]
    exact getCol_setCol_self d0 "Date" vd hR0 hvdN
  have hColA2 : getCol d2 "Amount" = va := by
    rw [← hd2]
    exact getCol_setCol_self d1 "Amount" va hR1 hvaN
  obtain ⟨d3, hd3⟩ : ∃ x, dropnaRows d2 ["Date", "Amount"] = x := ⟨_, rfl⟩
  have hR3 : Rect d3 := hd3 ▸ Rect_dropna d2 ["Date", "Amount"] hR2
  have hcols32 : d3.cols = d2.cols := by rw [← hd3]; rfl
  have hcell32 : ∀ n r, cellAt d3 n r = cellAt d2 n r := by
    intro n r
    rw [← hd3]
    exact cellAt_dropna d2 ["Date", "Amount"] n r
  have hrows3 : d3.rows =
      d2.rows.filter (fun r =>
        (!(isNan (cellAt d2 "Date" r))) && (!(isNan (cellAt d2 "Amount" r)))) := by
    rw [← hd3]
    show d2.rows.filter _ = _
    apply List.filter_congr
    intro r _
    simp [List.all_cons, List.all_nil, Bool.and_true]
  -- membership facts about a surviving row
  have hmem3 : ∀ r ∈ d3.rows,
      (∃ t, cellAt d2 "Date" r = .date t) ∧ (∃ q, cellAt d2 "Amount" r = .num q) := by
    intro r hr
    rw [hrows3] at hr
    obtain ⟨hr2, hcond⟩ := List.mem_filter.mp hr
    have hcd : cellAt d2 "Date" r ∈ vd := by
      rw [← hColD2]
      exact List.mem_map_of_mem (cellAt d2 "Date") hr2
    have hca : cellAt d2 "Amount" r ∈ va := by
      rw [← hColA2]
      exact List.mem_map_of_mem (cellAt d2 "Amount") hr2
    rw [← hvd] at hcd
    rw [← hva] at hca
    obtain ⟨o1, -, ho1⟩ := List.mem_map.mp hcd
    obtain ⟨o2, -, ho2⟩ := List.mem_map.mp hca
    simp only [Bool.and_eq_true, Bool.not_eq_true'] at hcond
    constructor
    · cases o1 with
      | none =>
        exfalso
        rw [← ho1] at hcond
        simp [dateValOf, isNan] at hcond
      | some t => exact ⟨t, by rw [← ho1]; rfl⟩
    · cases o2 with
      | none =>
        exfalso
        rw [← ho2] at hcond
        simp [amtValOf, isNan] at hcond
      | some q => exact ⟨q, by rw [← ho2]; rfl⟩
  -- the row count of the dropna stage
  have hcount3 : d3.rows.length = df.rows.length - badCount df := by
    rw [hrows3]
    rw [filter_two_proj (cellAt d2 "Date") (cellAt d2 "Amount")
      (fun x y => (!(isNan x)) && (!(isNan y))) d2.rows]
    have hzip : (d2.rows.map (cellAt d2 "Date")).zip (d2.rows.map (cellAt d2 "Amount")) =
        (dates.zip amounts).map (Prod.map dateValOf amtValOf) := by
      have e1 : d2.rows.map (cellAt d2 "Date") = dates.map dateValOf := by
        have := hColD2
        simp only [getCol] at this
        rw [this, hvd]
      have e2 : d2.rows.map (cellAt d2 "Amount") = amounts.map amtValOf := by
        have := hColA2
        simp only [getCol] at this
        rw [this, hva]
      rw [e1, e2, List.zip_map]
    rw [hzip, List.filter_map, List.length_map]
    have hpoint : ∀ x ∈ dates.zip amounts,
        ((fun p => (!(isNan p.1)) && (!(isNan p.2))) ∘ Prod.map dateValOf amtValOf) x =
          (!(x.1.isNone || x.2.isNone)) := by
      intro x _
      obtain ⟨o1, o2⟩ := x
      cases o1 <;> cases o2 <;> rfl
    rw [List.filter_congr hpoint]
    rw [filter_not_length (fun x : Option Int × Option ℚ => x.1.isNone || x.2.isNone)
      (dates.zip amounts)]
    have hziplen : (dates.zip amounts).length = df.rows.length := by
      rw [List.length_zip, hdatesN, hamountsN]
      exact Nat.min_self _
    rw [hziplen]
    have hbad : badCount df =
        ((dates.zip amounts).filter
          (fun x : Option Int × Option ℚ => x.1.isNone || x.2.isNone)).length := by
      unfold badCount
      rw [hd0, hdates, hamounts0]
    rw [hbad]
  -- the month stage
  obtain ⟨mv, hmv⟩ : ∃ x, (getCol d3 "Date").map monthValOf = x := ⟨_, rfl⟩
  have hmvN : mv.length = d3.rows.length := by
    rw [← hmv, List.length_map]
    simp [getCol]
  obtain ⟨d4, hd4⟩ : ∃ x, setCol d3 "Month" mv = x := ⟨_, rfl⟩
  have hN4 : d4.rows.length = d3.rows.length := by
    rw [← hd4, setCol_rows_length d3 "Month" mv hmvN]
  obtain ⟨u4, hrows4, -, -, hself4, hother4⟩ := setCol_spec d3 "Month" mv
  rw [hd4] at hrows4 hself4 hother4
  have hmv2 : mv = d3.rows.map (fun r => monthValOf (cellAt d3 "Date" r)) := by
    rw [← hmv]
    simp [getCol, List.map_map]
  have hrows4m : d4.rows = d3.rows.map (fun r => u4 r (monthValOf (cellAt d3 "Date" r))) := by
    rw [hrows4, hmv2, zipWith_map_self]
  -- assemble
  have hprep : prepare df = .ok d4 := by
    unfold prepare
    rw [if_neg (by rw [h1]; simp), if_neg (by rw [h2]; simp)]
    simp only [prepareBody]
    rw [hd0, hdates, hvd, hd1, hamounts, hva, hd2, hd3, hmv, hd4]
  refine ⟨d4, hprep, by rw [hN4, hcount3], ?_, ?_⟩
  · intro r4 hr4
    rw [hrows4m] at hr4
    obtain ⟨r3, hr3, hre⟩ := List.mem_map.mp hr4
    obtain ⟨⟨t, ht⟩, -⟩ := hmem3 r3 hr3
    have hrl : r3.length = d3.cols.length := hR3 r3 hr3
    refine ⟨t, ?_, ?_⟩
    · rw [← hre, hother4 "Date" (by decide) r3 _ hrl, hcell32, ht]
    · rw [← hre, hself4 r3 _ hrl, hcell32, ht]
      rfl
  · intro r4 hr4
    rw [hrows4m] at hr4
    obtain ⟨r3, hr3, hre⟩ := List.mem_map.mp hr4
    obtain ⟨⟨t, ht⟩, ⟨q, hq⟩⟩ := hmem3 r3 hr3
    have hrl : r3.length = d3.cols.length := hR3 r3 hr3
    constructor
    · exact ⟨t, by rw [← hre, hother4 "Date" (by decide) r3 _ hrl, hcell32, ht]⟩
    · exact ⟨q, by rw [← hre, hother4 "Amount" (by decide) r3 _ hrl, hcell32, hq]⟩

/-! ## The claims -/

/-- The month columns are exactly the months of the aggregated records. -/
theorem months_mem_iff (df : DF) (idx : List String) (m : Int) :
    m ∈ tbMonths df idx ↔ ∃ r ∈ validRows df idx, monthKey df r = some m := by
  unfold tbMonths
  rw [foldr_insertSorted_mem, List.mem_filterMap]

/-- The pivot has one row per dimension tuple of the aggregated records. -/
theorem table_mem_iff (df : DF) (idx : List String) (k : List Value) :
    (∃ r ∈ validRows df idx, keyOf df idx r = k) ↔
      ∃ cum g, (k, cum, g) ∈ (tbKeys df idx).map (fun k2 =>
        (k2, cumsum (movementRow df idx k2), grandOf (cumsum (movementRow df idx k2)))) := by
  constructor
  · rintro ⟨r, hr, he⟩
    refine ⟨_, _, List.mem_map_of_mem _ ?_⟩
    unfold tbKeys
    rw [List.mem_dedup, ← he]
    exact List.mem_map_of_mem (keyOf df idx) hr
  · rintro ⟨cum, g, hin⟩
    obtain ⟨k2, hk2, he2⟩ := List.mem_map.mp hin
    have hkk : k2 = k := congrArg Prod.fst he2
    subst hkk
    unfold tbKeys at hk2
    rw [List.mem_dedup, List.mem_map] at hk2
    exact hk2

/-- Every pivot row satisfies the cumulative recurrence and the grand
total contract. -/
theorem table_entry_spec (df : DF) (idx : List String) (e : List Value × List ℚ × ℚ)
    (he : e ∈ (tbKeys df idx).map (fun k =>
      (k, cumsum (movementRow df idx k), grandOf (cumsum (movementRow df idx k))))) :
    e.2.1.length = (tbMonths df idx).length ∧
    (∀ j, j < (tbMonths df idx).length →
       e.2.1.getD j 0 = (if j = 0 then 0 else e.2.1.getD (j - 1) 0) +
         movement df idx e.1 ((tbMonths df idx).getD j 0)) ∧
    (tbMonths df idx = [] → e.2.2 = 0) ∧
    (tbMonths df idx ≠ [] → e.2.2 = e.2.1.getD ((tbMonths df idx).length - 1) 0) := by
  obtain ⟨k, hk, hke⟩ := List.mem_map.mp he
  subst hke
  have hmlen : (movementRow df idx k).length = (tbMonths df idx).length := by
    unfold movementRow
    rw [List.length_map]
  refine ⟨?_, ?_, ?_, ?_⟩
  · show (cumsum (movementRow df idx k)).length = _
    rw [cumsum_length, hmlen]
  · intro j hj
    show (cumsum (movementRow df idx k)).getD j 0 = _
    rw [cumsum_getD (movementRow df idx k) j (by rw [hmlen]; exact hj)]
    unfold movementRow
    rw [getD_map_int (movement df idx k) (tbMonths df idx) j hj]
  · intro h0
    show grandOf (cumsum (movementRow df idx k)) = 0
    unfold movementRow
    rw [h0]
    rfl
  · intro h0
    show grandOf (cumsum (movementRow df idx k)) = (cumsum (movementRow df idx k)).getD _ 0
    have hne : cumsum (movementRow df idx k) ≠ [] := by
      intro hc
      apply h0
      have hlc := cumsum_length (movementRow df idx k)
      rw [hc] at hlc
      simp only [List.length_nil] at hlc
      rw [hmlen] at hlc
      exact List.length_eq_zero.mp hlc.symm
    unfold grandOf
    rw [getLast?_eq_getD _ hne]
    rw [cumsum_length, hmlen]
    rfl

/-- C1: for every canonical record set satisfying the dimension
precondition (so the pivot is produced), the trial balance pivot has one
column per distinct Month value of the aggregated records, in strictly
ascending calendar order; it has one row per distinct dimension tuple;
in every row each month cell equals the previous month's cell plus that
tuple's summed Amount movement for the month (zero where the tuple has
no records in that month); the trailing Grand Total equals the last
month's cumulative value per row, and equals zero when there are zero
months. (The Jan=100, Feb=−30, Mar=0 ⇒ 100, 70, 70, total 70 instance
is the witness.) -/
theorem claim_C1 (df : DF) (tb : TB) (h : trial_balance_view df = .ok tb) :
    TBSpec df tb := by
  simp only [trial_balance_view] at h
  split at h
  · exact absurd h (by simp)
  · rw [Except.ok.injEq] at h
    subst h
    exact ⟨rfl, foldr_insertSorted_chain _,
      fun m => months_mem_iff df _ m,
      fun k => table_mem_iff df _ k,
      fun e he => table_entry_spec df _ e he⟩

set_option maxRecDepth 40000 in
unseal Rat.mul Rat.inv Rat.add Rat.sub Rat.ofScientific in
/-- Witness for C1: the single-account instance with movements
Jan = 100, Feb = −30, Mar = 0 produces cumulative columns 100, 70, 70
and Grand Total 70, and satisfies the pivot specification. -/
theorem claim_C1_witness : trial_balance_view c1df = Except.ok c1tb ∧ TBSpec c1df c1tb :=
  ⟨by decide, claim_C1 c1df c1tb (by decide)⟩

/-- A candidate that parses at least one value scores at least 0. -/
theorem score_nonneg (l : List (Option Int)) (h : l.filterMap id ≠ []) :
    0 ≤ score l := by
  unfold score
  rw [if_neg (by simpa using h)]
  exact Int.ofNat_nonneg _

set_option maxRecDepth 40000 in
unseal Rat.mul Rat.inv Rat.add Rat.sub Rat.ofScientific in
/-- C2: date normalization scores the baseline parse and, when any value
is numeric, the day-serial, Unix-seconds and Unix-milliseconds
reinterpretations, each by the count of parsed values with year in
[1990, 2100]; the strictly highest score wins and ties keep the
earlier-evaluated candidate (order: baseline, day-serial, seconds,
milliseconds). In particular, on the numeric column 45000, 45100 the
day-serial reading (years in range) is chosen over the
seconds/milliseconds readings (1970, out of range). -/
theorem claim_C2 :
    (∀ series : List Value, DateSelSpec series) ∧
    parse_date c2series = unitCand c2series TimeUnit.d ∧
    unitCand c2series TimeUnit.d = [some 19431, some 19531] ∧
    yearInRange 19431 = true ∧ yearInRange 19531 = true ∧
    unitCand c2series TimeUnit.ms = [some 0, some 0] ∧
    unitCand c2series TimeUnit.s = [some 0, some 0] ∧
    yearInRange 0 = false := by
  exact ⟨dateSel, by decide, by decide, by decide, by decide, by decide, by decide, by decide⟩

set_option maxRecDepth 40000 in
unseal Rat.mul Rat.inv Rat.add Rat.sub Rat.ofScientific in
/-- Witness for C2: the selection specification instantiated at the
numeric column of the claim's instance. -/
theorem claim_C2_witness : DateSelSpec c2series := claim_C2.1 c2series

/-- C8: the normalizers are idempotent — a column of already-canonical
midnight dates is returned unchanged by the Date Normalizer, and a
column of already-numeric amounts is returned unchanged by the Amount
Normalizer. -/
theorem claim_C8 :
    (∀ l : List Int, parse_date (l.map Value.date) = l.map some) ∧
    (∀ l : List ℚ, parse_amount (l.map Value.num) = l.map some) := by
  constructor
  · intro l
    have hb : baselineCand (l.map Value.date) = l.map some := by
      unfold baselineCand
      rw [List.map_map]
      rfl
    have hn : ∀ m : List Int, (numsOf (m.map Value.date)).filterMap id = [] := by
      intro m
      induction m with
      | nil => rfl
      | cons x xs ih =>
        simp only [List.map_cons, numsOf] at ih ⊢
        simpa [to_numeric_val, List.filterMap_cons] using ih
    simp only [parse_date]
    rw [hn l]
    simp only [List.length_nil, Nat.lt_irrefl, if_false]
    exact hb
  · intro l
    unfold parse_amount
    rw [List.map_map]
    rfl

/-- Witness-style instance for C8: a canonical date column and a
canonical amount column pass through unchanged. -/
theorem claim_C8_witness :
    parse_date [Value.date 20119, Value.date 20089] = [some 20119, some 20089] ∧
    parse_amount [Value.num 100, Value.num (-30)] = [some 100, some (-30)] :=
  ⟨claim_C8.1 [20119, 20089], claim_C8.2 [100, -30]⟩

set_option maxRecDepth 40000 in
unseal Rat.mul Rat.inv Rat.add Rat.sub Rat.ofScientific in
/-- C10: when the free-form baseline resolves no values (sentinel score
−1) on a column with at least one numeric value, every numeric
reinterpretation that parses at least one value scores at least 0 and
therefore strictly outscores the baseline, so the column is assigned
dates from a numeric reinterpretation — even when none of the resulting
years lies in [1990, 2100] — rather than being treated as
all-unresolved. The digit-string column 100, 200 (day-serial years in
1900) is the instance. -/
theorem claim_C10 :
    (∀ (series : List Value) (u : TimeUnit),
       (unitCand series u).filterMap id ≠ [] → 0 ≤ score (unitCand series u)) ∧
    (∀ series : List Value,
       score (baselineCand series) = -1 →
       0 < ((numsOf series).filterMap id).length →
       (∃ u, (unitCand series u).filterMap id ≠ []) →
       parse_date series ≠ baselineCand series ∧
       (∃ u, parse_date series = unitCand series u) ∧
       0 ≤ score (parse_date series)) ∧
    score (baselineCand c10series) = -1 ∧
    parse_date c10series = unitCand c10series TimeUnit.d ∧
    unitCand c10series TimeUnit.d = [some (-25469), some (-25369)] ∧
    yearInRange (-25469) = false ∧ yearInRange (-25369) = false := by
  refine ⟨?_, ?_, by decide, by decide, by decide, by decide, by decide⟩
  · intro series u h
    exact score_nonneg _ h
  · intro series hbase hnum hex
    obtain ⟨u, hu⟩ := hex
    have hc : dateCandidates series =
        [baselineCand series, unitCand series .d, unitCand series .s, unitCand series .ms] := by
      simp [dateCandidates, hnum]
    obtain ⟨i, hlen, heq, hmax, hstrict⟩ := dateSel series
    rw [hc] at hlen heq hmax hstrict
    simp only [List.length_cons, List.length_nil] at hlen
    have hu0 : 0 ≤ score (unitCand series u) := score_nonneg _ hu
    have hj : ∃ j, j < 4 ∧
        ([baselineCand series, unitCand series .d, unitCand series .s,
          unitCand series .ms].getD j []) = unitCand series u := by
      cases u
      · exact ⟨1, by omega, rfl⟩
      · exact ⟨2, by omega, rfl⟩
      · exact ⟨3, by omega, rfl⟩
    obtain ⟨j, hj4, hjeq⟩ := hj
    have hsel_ge : score (unitCand series u) ≤
        score ([baselineCand series, unitCand series .d, unitCand series .s,
          unitCand series .ms].getD i []) := by
      rw [← hjeq]
      exact hmax j (by simp only [List.length_cons, List.length_nil]; omega)
    have hsel0 : 0 ≤ score ([baselineCand series, unitCand series .d, unitCand series .s,
        unitCand series .ms].getD i []) := le_trans hu0 hsel_ge
    have hi0 : i ≠ 0 := by
      intro h0
      rw [h0] at hsel0
      simp only [List.getD_cons_zero] at hsel0
      omega
    refine ⟨?_, ?_, ?_⟩
    · intro hEq
      rw [hEq] at heq
      rw [← heq] at hsel0
      omega
    · interval_cases i
      · exact absurd rfl hi0
      · exact ⟨.d, heq⟩
      · exact ⟨.s, heq⟩
      · exact ⟨.ms, heq⟩
    · rw [heq]
      exact hsel0

set_option maxRecDepth 40000 in
unseal Rat.mul Rat.inv Rat.add Rat.sub Rat.ofScientific in
/-- Witness for C10: the digit-string column — baseline resolves
nothing, the day-serial reinterpretation (years 1900, outside the
plausible range) is selected. -/
theorem claim_C10_witness :
    parse_date c10series ≠ baselineCand c10series ∧
    (∃ u, parse_date c10series = unitCand c10series u) ∧
    0 ≤ score (parse_date c10series) :=
  claim_C10.2.1 c10series (by decide) (by decide) ⟨TimeUnit.d, by decide⟩

/-- A character search fails exactly on lists not containing it. -/
theorem firstIdxOf_eq_none (c : Char) :
    ∀ l : List Char, firstIdxOf c l = none ↔ c ∉ l := by
  intro l
  induction l with
  | nil => simp [firstIdxOf]
  | cons a as ih =>
    simp only [firstIdxOf, List.mem_cons]
    split
    · rename_i ha
      subst ha
      simp
    · rename_i ha
      rw [Option.map_eq_none', ih]
      constructor
      · intro hn hc
        rcases hc with hc | hc
        · exact ha hc.symm
        · exact hn hc
      · intro hn hc
        exact hn (Or.inr hc)

/-- Members survive `dropWhile` membership downward. -/
theorem mem_of_mem_dropWhile (p : Char → Bool) (x : Char) :
    ∀ l : List Char, x ∈ l.dropWhile p → x ∈ l := by
  intro l
  induction l with
  | nil => intro h; simp at h
  | cons a as ih =>
    intro h
    rw [List.dropWhile_cons] at h
    split at h
    · exact List.mem_cons_of_mem a (ih h)
    · exact h

/-- Trimming only removes characters. -/
theorem mem_of_mem_trimChars (x : Char) (l : List Char) :
    x ∈ trimChars l → x ∈ l := by
  intro h
  unfold trimChars at h
  rw [List.mem_reverse] at h
  have h2 := mem_of_mem_dropWhile _ _ _ h
  rw [List.mem_reverse] at h2
  exact mem_of_mem_dropWhile _ _ _ h2

/-- Trimming does not touch a value that starts with `(` and ends
with `)`. -/
theorem trimChars_wrapped (u : List Char) :
    trimChars ('(' :: u ++ [')']) = '(' :: u ++ [')'] := by
  unfold trimChars
  rw [List.cons_append, List.dropWhile_cons, if_neg (by decide)]
  rw [show ('(' :: (u ++ [')'])).reverse = ')' :: (u.reverse ++ ['(']) from by simp]
  rw [List.dropWhile_cons, if_neg (by decide)]
  rw [show (')' :: (u.reverse ++ ['('])) = ('(' :: (u ++ [')'])).reverse from by simp]
  rw [List.reverse_reverse]

/-- The regex substitution leaves a value with no closing parenthesis
unchanged. -/
theorem parenSub_no_close (l : List Char) (h : ')' ∉ l) : parenSub l = l := by
  unfold parenSub
  have : lastIdxOf ')' l = none := by
    unfold lastIdxOf
    rw [(firstIdxOf_eq_none ')' l.reverse).mpr (by rwa [List.mem_reverse])]
    rfl
  rw [this]

/-- The regex substitution turns a fully wrapped value into a minus sign
followed by its inside. -/
theorem parenSub_wrapped (u : List Char) :
    parenSub ('(' :: u ++ [')']) = '-' :: u := by
  have hlen : ('(' :: u ++ [')']).length = u.length + 2 := by simp
  have hlast : lastIdxOf ')' ('(' :: u ++ [')']) = some (u.length + 1) := by
    unfold lastIdxOf
    rw [show ('(' :: u ++ [')']).reverse = ')' :: (u.reverse ++ ['(']) from by simp]
    rw [show firstIdxOf ')' (')' :: (u.reverse ++ ['('])) = some 0 from by
      unfold firstIdxOf
      rw [if_pos rfl]]
    simp only [Option.map_some']
    rw [hlen]
    congr 1
  have htake : List.take (u.length + 1) ('(' :: u ++ [')']) = '(' :: u := by
    rw [List.cons_append, List.take_succ_cons]
    congr 1
    exact List.take_left u [')']
  have hfirst : firstIdxOf '(' (List.take (u.length + 1) ('(' :: u ++ [')'])) = some 0 := by
    rw [htake]
    unfold firstIdxOf
    rw [if_pos rfl]
  have hmain : parenSub ('(' :: u ++ [')']) =
      List.take 0 ('(' :: u ++ [')']) ++ '-' ::
        (List.take (u.length + 1 - 0 - 1) (List.drop (0 + 1) ('(' :: u ++ [')'])) ++
          List.drop (u.length + 1 + 1) ('(' :: u ++ [')'])) := by
    simp only [parenSub, hlast, hfirst]
  rw [hmain, List.cons_append, List.take_zero, List.nil_append]
  rw [show u.length + 1 - 0 - 1 = u.length from by omega]
  rw [show (0 : Nat) + 1 = 1 from rfl]
  rw [show List.drop 1 ('(' :: (u ++ [')'])) = u ++ [')'] from rfl]
  rw [List.take_left u [')']]
  rw [List.drop_eq_nil_of_le (by simp)]
  simp

set_option maxRecDepth 40000 in
unseal Rat.mul Rat.inv Rat.add Rat.sub Rat.ofScientific in
/-- Counterexample to C3 as stated: the claim says only values fully
wrapped in parentheses are rewritten, but the source's regex
substitution rewrites a parenthesized span anywhere, so `"1e(1)"`
becomes `"1e-1"` and parses to 1/10, while the claim's only-fully-wrapped
algorithm leaves `"1e(1)"` unchanged and fails to coerce it. -/
theorem claim_C3_counterexample :
    parse_amount_val (Value.str "1e(1)") = some (1 / 10) ∧
    parse_amount_claimC3 (Value.str "1e(1)") = none := by
  exact ⟨by decide, by decide⟩

set_option maxRecDepth 40000 in
unseal Rat.mul Rat.inv Rat.add Rat.sub Rat.ofScientific in
/-- C3 (amended): amount normalization renders the value as text,
strips commas, trims, applies the regex rewrite — which leaves values
with no closing parenthesis unchanged and turns any value fully wrapped
in parentheses into a minus sign followed by its inside (but also
rewrites parenthesized spans inside other values) — and coerces the
result, with an unparseable marker on failure; in particular
`parse_amount("(1,234.56)") = -1234.56` and
`parse_amount("1,234.56") = 1234.56`. -/
theorem claim_C3 :
    (∀ s : String, (∀ c ∈ s.data, c ≠ ')') →
       parse_amount_val (.str s) = toNumericChars (cleanChars s.data)) ∧
    (∀ t : List Char,
       parse_amount_val (.str ⟨'(' :: t ++ [')']⟩) =
         toNumericChars ('-' :: t.filter (fun c => ¬ c = ','))) ∧
    parse_amount_val (.str "(1,234.56)") = some (-1234.56) ∧
    parse_amount_val (.str "1,234.56") = some 1234.56 ∧
    parse_amount_val (.str "1e(1)") = some (1 / 10) := by
  refine ⟨?_, ?_, by decide, by decide, by decide⟩
  · intro s hs
    show toNumericChars (parenSub (cleanChars s.data)) = _
    rw [parenSub_no_close]
    intro hmem
    have h1 := mem_of_mem_trimChars ')' _ hmem
    have h2 := List.mem_of_mem_filter h1
    exact hs ')' h2 rfl
  · intro t
    show toNumericChars (parenSub (cleanChars ('(' :: t ++ [')']))) = _
    have hclean : cleanChars ('(' :: t ++ [')']) =
        '(' :: t.filter (fun c => ¬ c = ',') ++ [')'] := by
      unfold cleanChars stripCommas
      rw [List.cons_append, List.filter_cons, if_pos (by decide), List.filter_append]
      rw [show [')'].filter (fun c => decide ¬ c = ',') = [')'] from by decide]
      rw [← List.cons_append]
      exact trimChars_wrapped _
    rw [hclean, parenSub_wrapped]

/-- C4: when after header reconciliation no column matches `date`, or
none matches `Net amount`, dataset preparation halts fatally with the
missing-required-column error before any normalization or aggregation,
and the whole session run produces no output at all (no partial
output), whichever view was selected. -/
theorem claim_C4 (df : DF) (v : View) :
    (hasCol (applyRename df) "date" = false →
       prepare df = .error "Missing required 'date' column." ∧
       run_app df v = .error "Missing required 'date' column.") ∧
    (hasCol (applyRename df) "date" = true →
       hasCol (applyRename df) "Net amount" = false →
       prepare df = .error "Missing required 'Net amount' column." ∧
       run_app df v = .error "Missing required 'Net amount' column.") := by
  constructor
  · intro h
    have hp : prepare df = .error "Missing required 'date' column." := by
      unfold prepare
      rw [if_pos h]
    refine ⟨hp, ?_⟩
    unfold run_app
    rw [hp]
    rfl
  · intro h1 h2
    have hp : prepare df = .error "Missing required 'Net amount' column." := by
      unfold prepare
      rw [if_neg (by rw [h1]; simp), if_pos h2]
    refine ⟨hp, ?_⟩
    unfold run_app
    rw [hp]
    rfl

/-- Witness for C4: a dataset with only `Net amount` halts on the
missing `date` column; a dataset with only a date column halts on the
missing `Net amount` column. -/
theorem claim_C4_witness :
    hasCol (applyRename c4df) "date" = false ∧
    prepare c4df = Except.error "Missing required 'date' column." ∧
    run_app c4df View.dashboard = Except.error "Missing required 'date' column." ∧
    hasCol (applyRename c4dfB) "date" = true ∧
    hasCol (applyRename c4dfB) "Net amount" = false ∧
    prepare c4dfB = Except.error "Missing required 'Net amount' column." :=
  ⟨by decide, ((claim_C4 c4df View.dashboard).1 (by decide)).1,
   ((claim_C4 c4df View.dashboard).1 (by decide)).2, by decide, by decide,
   ((claim_C4 c4dfB View.tb).2 (by decide) (by decide)).1⟩

/-- C5: on a raw dataset whose reconciled headers carry both required
columns, preparation succeeds, every canonical record has both Date and
Amount defined, and of N raw rows exactly the K rows with an
unparseable date or amount are dropped: N − K canonical records. -/
theorem claim_C5 (df : DF) (hR : Rect df)
    (h1 : hasCol (applyRename df) "date" = true)
    (h2 : hasCol (applyRename df) "Net amount" = true) :
    C5Spec df := by
  obtain ⟨d, hp, hlen, -, hcells⟩ := prepare_spec df hR h1 h2
  exact ⟨d, hp, hlen, hcells⟩

set_option maxRecDepth 40000 in
unseal Rat.mul Rat.inv Rat.add Rat.sub Rat.ofScientific in
/-- Witness for C5: three raw rows, one with an unparseable date, give
exactly two canonical records. -/
theorem claim_C5_witness :
    Rect c5df ∧ hasCol (applyRename c5df) "date" = true ∧
    hasCol (applyRename c5df) "Net amount" = true ∧
    c5df.rows.length = 3 ∧ badCount c5df = 1 ∧ C5Spec c5df :=
  ⟨by decide, by decide, by decide, by decide, by decide,
   claim_C5 c5df (by decide) (by decide) (by decide)⟩

/-- C6: a canonical record set with neither `GL Account` nor
`GL Account Name` makes the trial-balance view fail with its
descriptive error while the session stays alive — the transaction
download and the dashboard view are produced as usual; with at least
one of the two columns present the aggregation proceeds. -/
theorem claim_C6 (raw d : DF) (hp : prepare raw = .ok d) : C6Spec raw d := by
  constructor
  · rintro ⟨hg, hn⟩
    have h1 : "GL Account" ∉ dimColsPref.filter (fun x => hasCol d x) := by
      intro hmem
      rw [List.mem_filter] at hmem
      rw [hg] at hmem
      exact absurd hmem.2 (by simp)
    have h2 : "GL Account Name" ∉ dimColsPref.filter (fun x => hasCol d x) := by
      intro hmem
      rw [List.mem_filter] at hmem
      rw [hn] at hmem
      exact absurd hmem.2 (by simp)
    have htb : trial_balance_view d =
        .error "Need 'GL Account' and 'GL Account Name' columns." := by
      simp only [trial_balance_view]
      rw [if_pos ⟨h1, h2⟩]
    refine ⟨htb, ?_, ?_⟩
    · unfold run_app
      rw [hp]
      simp only [Except.map]
      rw [htb]
    · unfold run_app
      rw [hp]
      rfl
  · intro hor
    have hcond : ¬("GL Account" ∉ dimColsPref.filter (fun x => hasCol d x) ∧
        "GL Account Name" ∉ dimColsPref.filter (fun x => hasCol d x)) := by
      rintro ⟨ha, hb⟩
      rcases hor with h | h
      · exact ha (List.mem_filter.mpr ⟨by decide, h⟩)
      · exact hb (List.mem_filter.mpr ⟨by decide, h⟩)
    simp only [trial_balance_view]
    rw [if_neg hcond]
    exact ⟨_, rfl⟩

set_option maxRecDepth 40000 in
unseal Rat.mul Rat.inv Rat.add Rat.sub Rat.ofScientific in
/-- Witness for C6: a prepared record set with no account columns — the
trial balance errors, the session and transaction table survive. -/
theorem claim_C6_witness : prepare c6raw = Except.ok c6d ∧ C6Spec c6raw c6d :=
  ⟨by decide, claim_C6 c6raw c6d (by decide)⟩

/-- C7: every canonical record's Month is its Date truncated to the
start of the calendar month, and in particular epoch day 20119
(2025-01-31) truncates to epoch day 20089 (2025-01-01). -/
theorem claim_C7 (df d : DF) (hR : Rect df) (hp : prepare df = .ok d) :
    C7Spec d ∧ monthStart 20119 = 20089 ∧
    civilFromDays 20119 = (2025, 1, 31) ∧ civilFromDays 20089 = (2025, 1, 1) := by
  refine ⟨?_, by decide, by decide, by decide⟩
  have h1 : hasCol (applyRename df) "date" = true := by
    cases h : hasCol (applyRename df) "date"
    · exfalso
      unfold prepare at hp
      rw [if_pos h] at hp
      exact absurd hp (by simp)
    · rfl
  have h2 : hasCol (applyRename df) "Net amount" = true := by
    cases h : hasCol (applyRename df) "Net amount"
    · exfalso
      unfold prepare at hp
      rw [if_neg (by rw [h1]; simp), if_pos h] at hp
      exact absurd hp (by simp)
    · rfl
  obtain ⟨d2, hp2, -, hC7, -⟩ := prepare_spec df hR h1 h2
  rw [hp] at hp2
  rw [Except.ok.injEq] at hp2
  rw [hp2]
  exact hC7

set_option maxRecDepth 40000 in
unseal Rat.mul Rat.inv Rat.add Rat.sub Rat.ofScientific in
/-- Witness for C7: the record dated 2025-01-31 gets Month 2025-01-01. -/
theorem claim_C7_witness :
    prepare c7df = Except.ok c7d ∧ C7Spec c7d ∧
    cellAt c7d "Date" [Value.str "2025-01-31", Value.str "1", Value.date 20119,
      Value.num 1, Value.date 20089] = Value.date 20119 ∧
    cellAt c7d "Month" [Value.str "2025-01-31", Value.str "1", Value.date 20119,
      Value.num 1, Value.date 20089] = Value.date 20089 :=
  ⟨by decide, (claim_C7 c7df c7d (by decide) (by decide)).1, by decide, by decide⟩

/-- A successful header scan returns the first matching raw label: it
matches, and everything before it does not. -/
theorem findMatch_first (w : String) :
    ∀ (cols : List String) (c : String), findMatch w cols = some c →
      _norm c = _norm w ∧
        ∃ pre suf, cols = pre ++ c :: suf ∧ ∀ x ∈ pre, _norm x ≠ _norm w := by
  intro cols
  induction cols with
  | nil => intro c h; simp [findMatch] at h
  | cons a as ih =>
    intro c h
    simp only [findMatch] at h
    split at h
    · rename_i ha
      rw [Option.some.injEq] at h
      subst h
      exact ⟨ha, [], as, rfl, by simp⟩
    · rename_i ha
      obtain ⟨hn, pre, suf, heq, hpre⟩ := ih c h
      refine ⟨hn, a :: pre, suf, by rw [heq]; rfl, ?_⟩
      intro x hx
      rcases List.mem_cons.mp hx with hx | hx
      · rw [hx]; exact ha
      · exact hpre x hx

/-- The reconciliation loop is the per-expected-name first-match scan. -/
theorem reconcileAux_eq (cols : List String) :
    ∀ ws : List String, reconcileAux ws cols =
      ws.filterMap (fun w => (findMatch w cols).map (fun c => (c, w))) := by
  intro ws
  induction ws with
  | nil => rfl
  | cons w ws ih =>
    cases h : findMatch w cols with
    | none =>
      simp only [reconcileAux, h, List.filterMap_cons, Option.map_none']
      exact ih
    | some c =>
      simp only [reconcileAux, h, List.filterMap_cons, Option.map_some']
      rw [ih]

/-- Every pair of the rename mapping comes from a successful scan. -/
theorem reconcile_mem (cols : List String) :
    ∀ (ws : List String) (c w : String), (c, w) ∈ reconcileAux ws cols →
      w ∈ ws ∧ findMatch w cols = some c := by
  intro ws
  induction ws with
  | nil => intro c w h; simp [reconcileAux] at h
  | cons w0 ws ih =>
    intro c w h
    simp only [reconcileAux] at h
    cases h0 : findMatch w0 cols with
    | none =>
      simp only [h0] at h
      obtain ⟨hw, hf⟩ := ih c w h
      exact ⟨List.mem_cons_of_mem _ hw, hf⟩
    | some c0 =>
      simp only [h0] at h
      rcases List.mem_cons.mp h with he | hm
      · rw [Prod.mk.injEq] at he
        obtain ⟨h1, h2⟩ := he
        subst h1
        subst h2
        exact ⟨by simp, h0⟩
      · obtain ⟨hw, hf⟩ := ih c w hm
        exact ⟨List.mem_cons_of_mem _ hw, hf⟩

/-- What a rename lookup returns is associated in the mapping. -/
theorem lookupRename_mem :
    ∀ (m : List (String × String)) (x w : String),
      lookupRename m x = some w → (x, w) ∈ m := by
  intro m
  induction m with
  | nil => intro x w h; simp [lookupRename] at h
  | cons p ps ih =>
    intro x w h
    obtain ⟨c0, w0⟩ := p
    simp only [lookupRename] at h
    split at h
    · rename_i hc
      rw [Option.some.injEq] at h
      subst h
      subst hc
      exact List.mem_cons_self _ _
    · exact List.mem_cons_of_mem _ (ih x w h)

/-- C9: header reconciliation maps, for each expected canonical name,
the first raw label whose trimmed lower-cased form matches (first match
wins on duplicates), leaves every unmatched label unchanged, never
fails — it preserves the rows and the column count for any input — and
on the duplicate column list `DATE , date, extra` the first label wins
while the rest pass through. -/
theorem claim_C9 :
    (∀ cols : List String, reconcile cols =
       EXPECTED.filterMap (fun w => (findMatch w cols).map (fun c => (c, w)))) ∧
    (∀ (cols : List String) (w c : String), findMatch w cols = some c →
       _norm c = _norm w ∧
         ∃ pre suf, cols = pre ++ c :: suf ∧ ∀ x ∈ pre, _norm x ≠ _norm w) ∧
    (∀ (cols : List String) (c : String), (∀ w ∈ EXPECTED, _norm c ≠ _norm w) →
       (lookupRename (reconcile cols) c).getD c = c) ∧
    (∀ df : DF, (applyRename df).rows = df.rows ∧
       (applyRename df).cols.length = df.cols.length) ∧
    reconcile ["DATE ", "date", "extra"] = [("DATE ", "date")] ∧
    applyRename ⟨["DATE ", "date", "extra"], []⟩ = ⟨["date", "date", "extra"], []⟩ := by
  refine ⟨fun cols => reconcileAux_eq cols EXPECTED, fun cols w c => findMatch_first w cols c,
    ?_, fun df => ⟨applyRename_rows df, applyRename_cols_length df⟩, by decide, by decide⟩
  intro cols c hc
  cases hl : lookupRename (reconcile cols) c with
  | none => rfl
  | some w =>
    exfalso
    have hm := lookupRename_mem _ c w hl
    obtain ⟨hw, hf⟩ := reconcile_mem cols EXPECTED c w hm
    obtain ⟨hn, -⟩ := findMatch_first w cols c hf
    exact hc w hw hn

/-- Witness for C9: an unmatched label passes through unchanged, and
the duplicate-label instance maps only its first match. -/
theorem claim_C9_witness :
    (lookupRename (reconcile ["Fund", "xyz"]) "xyz").getD "xyz" = "xyz" ∧
    reconcile ["DATE ", "date", "extra"] = [("DATE ", "date")] :=
  ⟨claim_C9.2.2.1 ["Fund", "xyz"] "xyz" (by decide), claim_C9.2.2.2.2.1⟩

set_option maxRecDepth 40000 in
unseal Rat.mul Rat.inv Rat.add Rat.sub Rat.ofScientific in
/-- Witness for the amended C3: a parenthesis-free value passes the
rewrite untouched, and a fully wrapped inside is negated. -/
theorem claim_C3_witness :
    parse_amount_val (Value.str "12-34") = toNumericChars (cleanChars "12-34".data) ∧
    parse_amount_val (Value.str ⟨'(' :: "1,234.56".data ++ [')']⟩) =
      toNumericChars ('-' :: "1,234.56".data.filter (fun c => ¬ c = ',')) :=
  ⟨claim_C3.1 "12-34" (by decide), claim_C3.2.1 "1,234.56".data⟩
